import Mathlib

/-!
Verification of the monospace-web generator (`scripts/build.py`).

The program is a single-file static-site generator: it parses a Markdown
document, converts it to HTML, post-processes the HTML with a fixed sequence of
`re.sub` rewrites (list classing, figure synthesis, codehilite-class removal),
reformats the converter's table-of-contents side channel, renders a template
with defaulted metadata, and writes the result into a freshly cleaned output
directory.  This file embeds those operations over `List Char` and proves or
refutes the specification's claims about them.
-/

namespace MonospaceWeb

/-- Characters of a Python `str` as handled by `scripts/build.py`. -/
abbrev Str := List Char

/-- Literal match at the head of the input: `strip pat s` returns the remainder
of `s` after `pat` exactly when `pat` is a literal prefix of `s`. -/
def strip : Str → Str → Option Str
  | [], s => some s
  | _ :: _, [] => none
  | p :: ps, c :: cs => if c = p then strip ps cs else none

/-- The regex lookahead `[^>]*needle` with `stop = '>'`: scanning forward from
the current position, `needle` occurs before any occurrence of `stop`. -/
def hasBefore (stop : Char) (needle : Str) : Str → Bool
  | [] => false
  | c :: cs =>
    if (strip needle (c :: cs)).isSome then true
    else if c = stop then false
    else hasBefore stop needle cs

/-- Fuel-indexed worker for `subScan`; the fuel exists only to make the
recursion structural and is irrelevant once it is at least the input length. -/
def subScanF (f : Str → Option (Str × Nat)) : Nat → Str → Str
  | _, [] => []
  | 0, s => s
  | fuel + 1, c :: cs =>
    match f (c :: cs) with
    | some (r, n) => r ++ subScanF f fuel (cs.drop (n - 1))
    | none => c :: subScanF f fuel cs

/-- Python `re.sub` over the whole input: scan left to right; where the
single-position matcher `f` fires it returns the replacement text and the
number of consumed characters (at least one for every matcher in this file);
the scan emits the replacement and resumes right after the consumed characters.
Replacement text is never rescanned, exactly as in `re.sub`. -/
def subScan (f : Str → Option (Str × Nat)) (s : Str) : Str :=
  subScanF f s.length s

/-- `noMatch f s` holds when the single-position matcher `f` fires at no suffix
of `s`, i.e. `re.sub` with that matcher leaves `s` untouched. -/
def noMatch (f : Str → Option (Str × Nat)) : Str → Bool
  | [] => (f []).isNone
  | c :: cs => (f (c :: cs)).isNone && noMatch f cs

/-- Single-position matcher of build.py line 90,
`re.sub(r'<ul(?![^>]*class=)', '<ul class="incremental"', html_content)`:
the literal `<ul` not followed by `class=` before the next `>`. -/
def ulTry (s : Str) : Option (Str × Nat) :=
  match strip "<ul".data s with
  | some t =>
    if hasBefore '>' "class=".data t then none
    else some ("<ul class=\"incremental\"".data, 3)
  | none => none

/-- The list-classing rewrite for unordered lists (build.py line 90). -/
def listClassUl : Str → Str := subScan ulTry

/-- Single-position matcher of build.py line 91,
`re.sub(r'<ol(?![^>]*class=)(?![^>]*type=)', '<ol class="incremental" type="1"', ...)`. -/
def olTry (s : Str) : Option (Str × Nat) :=
  match strip "<ol".data s with
  | some t =>
    if hasBefore '>' "class=".data t || hasBefore '>' "type=".data t then none
    else some ("<ol class=\"incremental\" type=\"1\"".data, 3)
  | none => none

/-- The list-classing rewrite for ordered lists (build.py line 91). -/
def listClassOl : Str → Str := subScan olTry

/-- The literal `alt="` inside the image patterns. -/
def altPat : Str := "alt=\"".data

/-- After the closing quote of `alt="..."` in the self-closing image pattern:
greedy `([^>]*)` followed by the literal `/></p>`.  Since `[^>]*` cannot cross
a `>` and the following literal starts `/>`, backtracking collapses: the run of
non-`>` characters must end in `/`, the `\3` capture is that run without the
final `/`.  Returns the `\3` capture and the input following the match. -/
def figAfterQuoteSC (t : Str) : Option (Str × Str) :=
  let run := t.takeWhile (fun c => c ≠ '>')
  if run.getLast? = some '/' then
    match strip "></p>".data (t.dropWhile (fun c => c ≠ '>')) with
    | some rest => some (run.dropLast, rest)
    | none => none
  else none

/-- After the closing quote of `alt="..."` in the non-self-closing image
pattern: greedy `([^>]*)` followed by the literal `></p>`; the `\3` capture is
the full run of non-`>` characters. -/
def figAfterQuoteN (t : Str) : Option (Str × Str) :=
  match strip "></p>".data (t.dropWhile (fun c => c ≠ '>')) with
  | some rest => some (t.takeWhile (fun c => c ≠ '>'), rest)
  | none => none

/-- `alt="([^"]*)"` followed by the given tail parser: greedy `[^"]*` cannot
contain the closing quote, so the `\2` capture runs exactly to the first `"`. -/
def figAfterAlt (after : Str → Option (Str × Str)) (t : Str) : Option (Str × Str × Str) :=
  match t.dropWhile (fun c => c ≠ '"') with
  | c :: t2 =>
    if c = '"' then
      match after t2 with
      | some (g3, rest) => some (t.takeWhile (fun c => c ≠ '"'), g3, rest)
      | none => none
    else none
  | [] => none

/-- Greedy `([^>]+)` followed by `alt="` and the remainder of the image
pattern, with regex backtracking: longer `\1` captures are preferred, so the
match uses the rightmost `alt="` for which the rest of the pattern succeeds. -/
def figG1 (after : Str → Option (Str × Str)) : Str → Option (Str × Str × Str × Str)
  | [] => none
  | c :: cs =>
    if c = '>' then none
    else
      match figG1 after cs with
      | some (g1, g2, g3, rest) => some (c :: g1, g2, g3, rest)
      | none =>
        match strip altPat cs with
        | some t =>
          match figAfterAlt after t with
          | some (g2, g3, rest) => some ([c], g2, g3, rest)
          | none => none
        | none => none

/-- The opening of the generated caption element. -/
def figCapOpen : Str := "<figcaption aria-hidden=\"true\">".data

/-- The replacement template of build.py lines 95-102:
`<figure><img\1alt="\2"\3/><figcaption aria-hidden="true">\2</figcaption></figure>`,
where `/>` becomes `>` in the non-self-closing variant. -/
def figRepl (slash : Bool) (g1 g2 g3 : Str) : Str :=
  "<figure><img".data ++ g1 ++ altPat ++ g2 ++ '"' ::
    (g3 ++ (if slash then "/>".data else ">".data) ++ figCapOpen ++ g2 ++
      "</figcaption></figure>".data)

/-- The pattern text after the `\3` capture: `/></p>` in the self-closing
variant, `></p>` otherwise. -/
def figTail (slash : Bool) : Str :=
  if slash then "/></p>".data else "></p>".data

/-- Single-position matcher of build.py lines 95-102:
`<p><img([^>]+)alt="([^"]*)"([^>]*)/></p>` for `slash = true` and
`<p><img([^>]+)alt="([^"]*)"([^>]*)></p>` for `slash = false`. -/
def figTry (slash : Bool) (s : Str) : Option (Str × Nat) :=
  match strip "<p><img".data s with
  | some u =>
    match figG1 (if slash then figAfterQuoteSC else figAfterQuoteN) u with
    | some (g1, g2, g3, rest) => some (figRepl slash g1 g2 g3, s.length - rest.length)
    | none => none
  | none => none

/-- The figure-synthesis pass for self-closing image tags (lines 95-97). -/
def figureSC : Str → Str := subScan (figTry true)

/-- The figure-synthesis pass for non-self-closing image tags (lines 100-102). -/
def figureN : Str → Str := subScan (figTry false)

/-- The literal removed by build.py line 105. -/
def chPat : Str := " class=\"codehilite\"".data

/-- Single-position matcher of build.py line 105,
`re.sub(r' class="codehilite"', '', html_content)`. -/
def chTry (s : Str) : Option (Str × Nat) :=
  match strip chPat s with
  | some _ => some ([], chPat.length)
  | none => none

/-- The codehilite-class stripping rewrite (build.py line 105). -/
def stripCodehilite : Str → Str := subScan chTry

/-- The list-classing and figure-synthesis rewrites in source order
(build.py lines 90-102). -/
def listFigRules (s : Str) : Str :=
  figureN (figureSC (listClassOl (listClassUl s)))

/-- The whole HTML post-processing sequence of build.py lines 88-105. -/
def normalize (s : Str) : Str :=
  stripCodehilite (listFigRules s)

/-- The remainder of the input after the first occurrence of `needle`, when
`needle` occurs: the scanning part of `re.search`. -/
def afterFirst (needle : Str) : Str → Option Str
  | [] => none
  | c :: cs =>
    match strip needle (c :: cs) with
    | some t => some t
    | none => afterFirst needle cs

/-- The text before the first occurrence of `needle`, when `needle` occurs:
together with `afterFirst` this implements the lazy group of
`re.search(r'<ul>(.*?)</ul>', toc_html, re.DOTALL)`. -/
def beforeFirst (needle : Str) : Str → Option Str
  | [] => none
  | c :: cs =>
    match strip needle (c :: cs) with
    | some _ => some []
    | none => (beforeFirst needle cs).map (c :: ·)

/-- The literal opening of a TOC anchor. -/
def anchorPat : Str := "<a href=\"#".data

/-- Single-position matcher of build.py line 117,
`re.sub(r'<a href="#([^"]+)"', lambda m: f'...' , list_items)`: the anchor
target is captured (greedy `[^"]+`, hence exactly up to the first quote) and
the replacement repeats the link with an added `id="toc-..."` attribute. -/
def anchorTry (s : Str) : Option (Str × Nat) :=
  match strip anchorPat s with
  | some t =>
    let g := t.takeWhile (fun c => c ≠ '"')
    if g = [] then none
    else
      match t.dropWhile (fun c => c ≠ '"') with
      | c :: _ =>
        if c = '"' then
          some (anchorPat ++ g ++ "\" id=\"toc-".data ++ g ++ "\"".data,
            anchorPat.length + g.length + 1)
        else none
      | [] => none
  | none => none

/-- The id-injection rewrite applied to the extracted TOC items (line 117). -/
def addTocIds : Str → Str := subScan anchorTry

/-- The empty classed list used when the TOC has no extractable items. -/
def emptyToc : Str := "<ul class=\"incremental\"></ul>".data

/-- build.py lines 112-120: `re.search(r'<ul>(.*?)</ul>', toc_html, re.DOTALL)`
takes the lazily matched group between the first `<ul>` and the first following
`</ul>`; on success ids are injected and the incremental class is added,
otherwise the TOC falls back to the empty classed list. -/
def formatToc (tocHtml : Str) : Str :=
  match afterFirst "<ul>".data tocHtml with
  | some t =>
    match beforeFirst "</ul>".data t with
    | some items => "<ul class=\"incremental\">".data ++ addTocIds items ++ "</ul>".data
    | none => emptyToc
  | none => emptyToc

/-- build.py lines 108 and 121-122: `if hasattr(self.md, 'toc') and self.md.toc:`
— a missing or empty side channel yields the empty classed list directly. -/
def tocOrEmpty (tocHtml : Str) : Str :=
  if tocHtml = [] then emptyToc else formatToc tocHtml

/-- One entry of the converter's heading outline: heading level, anchor id and
heading text. -/
structure Heading where
  level : Nat
  anchor : Str
  text : Str
deriving DecidableEq

/-- Fuel-indexed worker for `renderEntries`. -/
def renderEntriesF : Nat → List Heading → Str
  | _, [] => []
  | 0, _ => []
  | fuel + 1, h :: rest =>
    let kids := rest.takeWhile (fun e => h.level < e.level)
    let sibs := rest.dropWhile (fun e => h.level < e.level)
    "<li><a href=\"#".data ++ h.anchor ++ "\">".data ++ h.text ++ "</a>".data ++
      (if kids = [] then [] else "<ul>".data ++ renderEntriesF fuel kids ++ "</ul>".data) ++
      "</li>".data ++ renderEntriesF fuel sibs

/-- Modelled from the spec: the Markdown converter (an external collaborator;
its code is not under src/) renders the heading outline of the document as a
nested unordered list — every heading becomes `<li><a href="#anchor">text</a></li>`
and a maximal run of deeper headings nests as a `<ul>` inside the preceding
entry, properly ordered by heading level. -/
def renderEntries (hs : List Heading) : Str :=
  renderEntriesF hs.length hs

/-- Modelled from the spec: the converter's `toc` side channel, the nested list
of `renderEntries` wrapped in the converter's `<div class="toc">` container;
with no headings it is the empty list `<div class="toc"><ul></ul></div>`. -/
def tocSideChannel (hs : List Heading) : Str :=
  "<div class=\"toc\"><ul>".data ++ renderEntries hs ++ "</ul></div>".data

/-- The shape of one flat TOC item before id injection. -/
def entryOutPre (e : Heading) : Str :=
  "<li><a href=\"#".data ++ e.anchor ++ "\">".data ++ e.text ++ "</a></li>".data

/-- The shape of one flat TOC item after id injection: the anchor carries both
`href="#a"` and `id="toc-a"`. -/
def entryOutId (e : Heading) : Str :=
  "<li><a href=\"#".data ++ e.anchor ++ "\" id=\"toc-".data ++ e.anchor ++
    "\">".data ++ e.text ++ "</a></li>".data

/-- Concatenation of a per-heading rendering over an outline. -/
def entriesOut (g : Heading → Str) : List Heading → Str
  | [] => []
  | e :: hs => g e ++ entriesOut g hs

/-- Well-formedness of an outline entry as produced by the converter for
ordinary heading text: a nonempty anchor and no markup metacharacters inside
the anchor or the rendered heading text. -/
def wfHeading (e : Heading) : Prop :=
  e.anchor ≠ [] ∧ (∀ c ∈ e.anchor, c ≠ '<' ∧ c ≠ '"') ∧ ∀ c ∈ e.text, c ≠ '<'

instance (e : Heading) : Decidable (wfHeading e) := by
  unfold wfHeading; infer_instance

/-- `post.metadata.get(key, default)` over the parsed front matter. -/
def mget (m : List (Str × Str)) (k d : Str) : Str :=
  match m.find? (fun p => p.1 == k) with
  | some p => p.2
  | none => d

/-- The five template slots filled from metadata. -/
structure PageMeta where
  title : Str
  subtitle : Str
  author : Str
  authorUrl : Str
  tocTitle : Str
deriving DecidableEq

/-- build.py lines 129-133: the metadata lookups with their defaults. -/
def metaOf (m : List (Str × Str)) : PageMeta :=
  { title := mget m "title".data "The Monospace Web".data
    subtitle := mget m "subtitle".data []
    author := mget m "author".data []
    authorUrl := mget m "author-url".data []
    tocTitle := mget m "toc-title".data "Contents".data }

/-- Modelled from the spec: the fixed page skeleton `templates/monospace.html`
(not under src/) with substitution slots `title`, `subtitle`, `author`,
`author_url`, `toc_title`, `toc` and `content`, each value spliced verbatim
between fixed chrome. -/
def renderTemplate (pm : PageMeta) (toc content : Str) : Str :=
  "<!DOCTYPE html><html><head><title>".data ++ pm.title ++
    "</title></head><body><header>".data ++ pm.subtitle ++ pm.author ++
    pm.authorUrl ++ "</header><nav>".data ++ pm.tocTitle ++ toc ++
    "</nav><main>".data ++ content ++ "</main></body></html>".data

/-- The parsed input document: front-matter metadata plus the converter's two
outputs for the body, `self.md.convert(post.content)` and `self.md.toc`. -/
structure Document where
  meta : List (Str × Str)
  contentHtml : Str
  tocHtml : Str
deriving DecidableEq

/-- build.py lines 83-136: the page text generated for an existing input. -/
def generatePage (doc : Document) : Str :=
  renderTemplate (metaOf doc.meta) (tocOrEmpty doc.tocHtml) (normalize doc.contentHtml)

/-- The state of the output directory: the generated page, if written, and the
copied static files. -/
structure OutDir where
  indexHtml : Option Str
  assets : List (Str × Str)
deriving DecidableEq

/-- `clean_output_dir` (lines 49-53): `shutil.rmtree` of the output directory
followed by `os.makedirs` — the previous contents are discarded entirely. -/
def cleanOutputDir (_prev : OutDir) : OutDir :=
  { indexHtml := none, assets := [] }

/-- `copy_static_files` (lines 55-70): a recursive byte-for-byte copy of the
static tree when it exists; the trailing docs/src probe only prints. -/
def copyStaticFiles (staticSrc : Option (List (Str × Str))) (o : OutDir) : OutDir :=
  match staticSrc with
  | some fs => { o with assets := fs }
  | none => o

/-- Errors the generation step could in principle surface. -/
inductive BuildError where
  | templateError
deriving DecidableEq

/-- `generate_monospace_web` (lines 72-143): a missing input file is reported
(`Bool` records the printed report) and the method returns without writing and
without raising; otherwise the page is generated and written to index.html. -/
def generateMonospaceWeb (input : Option Document) (o : OutDir) :
    Except BuildError (OutDir × Bool) :=
  match input with
  | none => .ok (o, true)
  | some doc => .ok ({ o with indexHtml := some (generatePage doc) }, false)

/-- `build` (lines 145-158): clean the output directory, copy static files,
generate the page. -/
def build (input : Option Document) (staticSrc : Option (List (Str × Str)))
    (prev : OutDir) : Except BuildError OutDir :=
  match generateMonospaceWeb input (copyStaticFiles staticSrc (cleanOutputDir prev)) with
  | .ok (o, _) => .ok o
  | .error e => .error e

end MonospaceWeb

namespace MonospaceWeb

/-! Generic lemmas about the string machinery. -/

theorem strip_sound {p : Str} : ∀ {s t : Str}, strip p s = some t → s = p ++ t := by
  induction p with
  | nil =>
    intro s t h
    simp only [strip, Option.some.injEq] at h
    simp [h]
  | cons a as ih =>
    intro s t h
    cases s with
    | nil => simp [strip] at h
    | cons c cs =>
      simp only [strip] at h
      by_cases hc : c = a
      · subst hc
        simp only [if_pos rfl] at h
        simp [ih h]
      · simp [hc] at h

theorem strip_append (p t : Str) : strip p (p ++ t) = some t := by
  induction p with
  | nil => simp [strip]
  | cons a as ih => simp [strip, ih]

theorem strip_none_head {a c : Char} {ps cs : Str} (h : c ≠ a) :
    strip (a :: ps) (c :: cs) = none := by
  simp [strip, h]

theorem subScanF_congr (f : Str → Option (Str × Nat)) :
    ∀ (n₁ : Nat) {n₂ : Nat} {s : Str}, s.length ≤ n₁ → s.length ≤ n₂ →
      subScanF f n₁ s = subScanF f n₂ s := by
  intro n₁
  induction n₁ with
  | zero =>
    intro n₂ s h1 _
    have hs : s = [] := List.eq_nil_of_length_eq_zero (Nat.le_zero.mp h1)
    subst hs
    cases n₂ <;> rfl
  | succ m ih =>
    intro n₂ s h1 h2
    cases s with
    | nil => cases n₂ <;> rfl
    | cons c cs =>
      cases n₂ with
      | zero => simp at h2
      | succ m₂ =>
        simp only [subScanF]
        cases hf : f (c :: cs) with
        | none =>
          have hl : cs.length ≤ m := by simp at h1; omega
          have hl2 : cs.length ≤ m₂ := by simp at h2; omega
          simp [ih hl hl2]
        | some rn =>
          obtain ⟨r, n⟩ := rn
          have hd : (cs.drop (n - 1)).length ≤ m := by
            simp [List.length_drop] at h1 ⊢; omega
          have hd2 : (cs.drop (n - 1)).length ≤ m₂ := by
            simp [List.length_drop] at h2 ⊢; omega
          simp [ih hd hd2]

theorem subScan_cons (f : Str → Option (Str × Nat)) (c : Char) (cs : Str) :
    subScan f (c :: cs) =
      match f (c :: cs) with
      | some (r, n) => r ++ subScan f (cs.drop (n - 1))
      | none => c :: subScan f cs := by
  show subScanF f (cs.length + 1) (c :: cs) = _
  cases hf : f (c :: cs) with
  | none => simp only [subScanF, hf]; rfl
  | some rn =>
    obtain ⟨r, n⟩ := rn
    simp only [subScanF, hf]
    have hc := @subScanF_congr f cs.length ((cs.drop (n - 1)).length) (cs.drop (n - 1))
      (by simp [List.length_drop]) (le_refl _)
    simp [subScan, hc]

theorem subScan_none {f : Str → Option (Str × Nat)} {c : Char} {cs : Str}
    (h : f (c :: cs) = none) : subScan f (c :: cs) = c :: subScan f cs := by
  rw [subScan_cons, h]

theorem subScan_some {f : Str → Option (Str × Nat)} {c : Char} {cs r : Str} {n : Nat}
    (h : f (c :: cs) = some (r, n)) :
    subScan f (c :: cs) = r ++ subScan f (cs.drop (n - 1)) := by
  rw [subScan_cons, h]

theorem subScan_id_of_none {f : Str → Option (Str × Nat)} :
    ∀ {s : Str}, (∀ t, t <:+ s → f t = none) → subScan f s = s := by
  intro s
  induction s with
  | nil => intro _; rfl
  | cons c cs ih =>
    intro h
    rw [subScan_none (h (c :: cs) (List.suffix_refl _))]
    exact congrArg (c :: ·) (ih fun t ht => h t (ht.trans (List.suffix_cons c cs)))

theorem subScan_skip {f : Str → Option (Str × Nat)} :
    ∀ {a b : Str}, (∀ c cs, c ∈ a → f (c :: cs) = none) →
      subScan f (a ++ b) = a ++ subScan f b := by
  intro a
  induction a with
  | nil => intro b _; rfl
  | cons x xs ih =>
    intro b h
    have h1 : f (x :: (xs ++ b)) = none := h x _ (by simp)
    rw [List.cons_append, subScan_none h1, ih (fun c cs hc => h c cs (by simp [hc]))]
    rfl

theorem noMatch_imp {f : Str → Option (Str × Nat)} :
    ∀ {s : Str}, noMatch f s = true → ∀ t, t <:+ s → f t = none := by
  intro s
  induction s with
  | nil =>
    intro h t ht
    rw [List.suffix_nil.mp ht]
    simpa [noMatch, Option.isNone_iff_eq_none] using h
  | cons c cs ih =>
    intro h t ht
    simp only [noMatch, Bool.and_eq_true, Option.isNone_iff_eq_none] at h
    rcases List.suffix_cons_iff.mp ht with rfl | h2
    · exact h.1
    · exact ih h.2 t h2

theorem suffix_append_cases {t b : Str} :
    ∀ {a : Str}, t <:+ a ++ b → t <:+ b ∨ ∃ a', a' <:+ a ∧ a' ≠ [] ∧ t = a' ++ b := by
  intro a
  induction a with
  | nil => intro h; exact .inl (by simpa using h)
  | cons x xs ih =>
    intro h
    rcases List.suffix_cons_iff.mp (by simpa using h) with h1 | h2
    · exact .inr ⟨x :: xs, List.suffix_refl _, by simp, by simpa using h1⟩
    · rcases ih h2 with h3 | ⟨a', ha, hne, rfl⟩
      · exact .inl h3
      · exact .inr ⟨a', ha.trans (List.suffix_cons x xs), hne, rfl⟩

theorem takeWhile_split {p : Char → Bool} {b : Char} {t : Str} (hb : p b = false) :
    ∀ {a : Str}, (∀ x ∈ a, p x = true) →
      (a ++ b :: t).takeWhile p = a ∧ (a ++ b :: t).dropWhile p = b :: t := by
  intro a
  induction a with
  | nil => intro _; simp [List.takeWhile_cons, List.dropWhile_cons, hb]
  | cons x xs ih =>
    intro ha
    have hx : p x = true := ha x (by simp)
    have h2 := ih fun y hy => ha y (by simp [hy])
    simp [List.takeWhile_cons, List.dropWhile_cons, hx, h2.1, h2.2]

theorem mem_takeWhile {p : Char → Bool} : ∀ {l : Str} {x : Char},
    x ∈ l.takeWhile p → p x = true := by
  intro l
  induction l with
  | nil => simp
  | cons c cs ih =>
    intro x hx
    rw [List.takeWhile_cons] at hx
    by_cases hc : p c = true
    · rw [if_pos hc] at hx
      rcases List.mem_cons.mp hx with rfl | hx2
      · exact hc
      · exact ih hx2
    · rw [if_neg hc] at hx
      simp at hx

end MonospaceWeb

namespace MonospaceWeb

/-! Lemmas about the list-classing matchers. -/

theorem ulTry_eval (w : Str) :
    ulTry ("<ul".data ++ w) =
      if hasBefore '>' "class=".data w then none
      else some ("<ul class=\"incremental\"".data, 3) := by
  unfold ulTry
  rw [strip_append]

theorem olTry_eval (w : Str) :
    olTry ("<ol".data ++ w) =
      if hasBefore '>' "class=".data w || hasBefore '>' "type=".data w then none
      else some ("<ol class=\"incremental\" type=\"1\"".data, 3) := by
  unfold olTry
  rw [strip_append]

theorem ulTry_none_head {c : Char} {cs : Str} (h : c ≠ '<') : ulTry (c :: cs) = none := by
  unfold ulTry
  rw [show ("<ul".data : Str) = '<' :: "ul".data from rfl, strip_none_head h]

theorem olTry_none_head {c : Char} {cs : Str} (h : c ≠ '<') : olTry (c :: cs) = none := by
  unfold olTry
  rw [show ("<ol".data : Str) = '<' :: "ol".data from rfl, strip_none_head h]

theorem figTry_none_head {slash : Bool} {c : Char} {cs : Str} (h : c ≠ '<') :
    figTry slash (c :: cs) = none := by
  unfold figTry
  rw [show ("<p><img".data : Str) = '<' :: "p><img".data from rfl, strip_none_head h]

theorem chTry_none_head {c : Char} {cs : Str} (h : c ≠ ' ') : chTry (c :: cs) = none := by
  unfold chTry
  rw [show (chPat : Str) = ' ' :: "class=\"codehilite\"".data from rfl, strip_none_head h]

theorem anchorTry_none_head {c : Char} {cs : Str} (h : c ≠ '<') :
    anchorTry (c :: cs) = none := by
  unfold anchorTry
  rw [show (anchorPat : Str) = '<' :: "a href=\"#".data from rfl, strip_none_head h]

theorem ulTry_shape {t : Str} {x : Str × Nat} (h : ulTry t = some x) :
    ∃ w, t = "<ul".data ++ w ∧ hasBefore '>' "class=".data w = false := by
  unfold ulTry at h
  split at h
  case _ w hs =>
    split at h
    · exact absurd h (by simp)
    case _ hb => exact ⟨w, strip_sound hs, by simpa using hb⟩
  case _ => exact absurd h (by simp)

theorem olTry_shape {t : Str} {x : Str × Nat} (h : olTry t = some x) :
    ∃ w, t = "<ol".data ++ w ∧
      (hasBefore '>' "class=".data w || hasBefore '>' "type=".data w) = false := by
  unfold olTry at h
  split at h
  case _ w hs =>
    split at h
    · exact absurd h (by simp)
    case _ hb => exact ⟨w, strip_sound hs, by simpa using hb⟩
  case _ => exact absurd h (by simp)

theorem chTry_shape {t : Str} {x : Str × Nat} (h : chTry t = some x) :
    ∃ w, t = chPat ++ w := by
  unfold chTry at h
  split at h
  case _ w hs => exact ⟨w, strip_sound hs⟩
  case _ => exact absurd h (by simp)

/-- The per-occurrence behaviour of the `<ul` rewrite of line 90. -/
theorem listClassUl_eq (w : Str) :
    listClassUl ("<ul".data ++ w) =
      if hasBefore '>' "class=".data w then "<ul".data ++ listClassUl w
      else "<ul class=\"incremental\"".data ++ listClassUl w := by
  have he := ulTry_eval w
  by_cases hb : hasBefore '>' "class=".data w
  · rw [if_pos hb] at he
    have he' : ulTry ('<' :: 'u' :: 'l' :: w) = none := he
    rw [if_pos hb]
    show subScan ulTry ('<' :: 'u' :: 'l' :: w) = _
    rw [subScan_none he', subScan_none (ulTry_none_head (by decide)),
        subScan_none (ulTry_none_head (by decide))]
    rfl
  · rw [if_neg hb] at he
    have he' : ulTry ('<' :: 'u' :: 'l' :: w) =
      some ("<ul class=\"incremental\"".data, 3) := he
    rw [if_neg hb]
    show subScan ulTry ('<' :: 'u' :: 'l' :: w) = _
    rw [subScan_some he']
    rfl

/-- The per-occurrence behaviour of the `<ol` rewrite of line 91. -/
theorem listClassOl_eq (w : Str) :
    listClassOl ("<ol".data ++ w) =
      if hasBefore '>' "class=".data w || hasBefore '>' "type=".data w then
        "<ol".data ++ listClassOl w
      else "<ol class=\"incremental\" type=\"1\"".data ++ listClassOl w := by
  have he := olTry_eval w
  by_cases hb : (hasBefore '>' "class=".data w || hasBefore '>' "type=".data w : Bool)
  · rw [if_pos hb] at he
    have he' : olTry ('<' :: 'o' :: 'l' :: w) = none := he
    rw [if_pos hb]
    show subScan olTry ('<' :: 'o' :: 'l' :: w) = _
    rw [subScan_none he', subScan_none (olTry_none_head (by decide)),
        subScan_none (olTry_none_head (by decide))]
    rfl
  · rw [if_neg hb] at he
    have he' : olTry ('<' :: 'o' :: 'l' :: w) =
      some ("<ol class=\"incremental\" type=\"1\"".data, 3) := he
    rw [if_neg hb]
    show subScan olTry ('<' :: 'o' :: 'l' :: w) = _
    rw [subScan_some he']
    rfl

/-! No-match identities for the five rewrite rules. -/

theorem listClassUl_id {s : Str}
    (h : ∀ w, ("<ul".data ++ w) <:+ s → hasBefore '>' "class=".data w = true) :
    listClassUl s = s := by
  refine subScan_id_of_none fun t ht => ?_
  rcases he : ulTry t with _ | x
  · rfl
  · obtain ⟨w, rfl, hb⟩ := ulTry_shape he
    rw [h w ht] at hb
    exact absurd hb (by simp)

theorem listClassOl_id {s : Str}
    (h : ∀ w, ("<ol".data ++ w) <:+ s →
      (hasBefore '>' "class=".data w || hasBefore '>' "type=".data w) = true) :
    listClassOl s = s := by
  refine subScan_id_of_none fun t ht => ?_
  rcases he : olTry t with _ | x
  · rfl
  · obtain ⟨w, rfl, hb⟩ := olTry_shape he
    rw [h w ht] at hb
    exact absurd hb (by simp)

theorem stripCodehilite_id {s : Str} (h : ¬ chPat <:+: s) : stripCodehilite s = s := by
  refine subScan_id_of_none fun t ht => ?_
  rcases he : chTry t with _ | x
  · rfl
  · obtain ⟨w, rfl⟩ := chTry_shape he
    exact absurd (List.infix_iff_prefix_suffix.mpr ⟨chPat ++ w, ⟨w, rfl⟩, ht⟩) h

end MonospaceWeb

namespace MonospaceWeb

/-! Soundness and completeness of the image-pattern parsers. -/

theorem eq_dropLast_concat {l : Str} {x : Char} (h : l.getLast? = some x) :
    l = l.dropLast ++ [x] := by
  induction l using List.reverseRecOn with
  | nil => simp at h
  | append_singleton xs a _ =>
    rw [List.getLast?_concat] at h
    obtain rfl := Option.some.inj h
    simp

theorem figAfterQuoteSC_sound {t g3 rest : Str} (h : figAfterQuoteSC t = some (g3, rest)) :
    t = g3 ++ "/></p>".data ++ rest ∧ ∀ c ∈ g3, c ≠ '>' := by
  simp only [figAfterQuoteSC] at h
  split at h
  case isFalse => exact absurd h (by simp)
  case isTrue hlast =>
    split at h
    case h_2 => exact absurd h (by simp)
    case h_1 rest' hstrip =>
      simp only [Option.some.injEq, Prod.mk.injEq] at h
      obtain ⟨rfl, rfl⟩ := h
      have hrun := eq_dropLast_concat hlast
      have hdw := strip_sound hstrip
      constructor
      · conv_lhs => rw [← List.takeWhile_append_dropWhile
          (p := fun c => decide (c ≠ '>')) (l := t)]
        rw [hdw, hrun]
        simp [show ("/></p>".data : Str) = '/' :: "></p>".data from rfl]
      · intro c hc
        have hmem : c ∈ t.takeWhile (fun c => decide (c ≠ '>')) := by
          rw [hrun]
          exact List.mem_append.mpr (.inl hc)
        simpa using mem_takeWhile hmem

theorem figAfterQuoteN_sound {t g3 rest : Str} (h : figAfterQuoteN t = some (g3, rest)) :
    t = g3 ++ "></p>".data ++ rest ∧ ∀ c ∈ g3, c ≠ '>' := by
  simp only [figAfterQuoteN] at h
  split at h
  case h_2 => exact absurd h (by simp)
  case h_1 rest' hstrip =>
    simp only [Option.some.injEq, Prod.mk.injEq] at h
    obtain ⟨rfl, rfl⟩ := h
    have hdw := strip_sound hstrip
    constructor
    · conv_lhs => rw [← List.takeWhile_append_dropWhile
        (p := fun c => decide (c ≠ '>')) (l := t)]
      rw [hdw]
      simp
    · intro c hc
      simpa using mem_takeWhile hc

theorem figAfterQuoteSC_complete {g3 rest : Str} (h : ∀ c ∈ g3, c ≠ '>') :
    figAfterQuoteSC (g3 ++ "/></p>".data ++ rest) = some (g3, rest) := by
  have harr : g3 ++ "/></p>".data ++ rest = (g3 ++ ['/']) ++ '>' :: ("</p>".data ++ rest) := by
    rw [show ("/></p>".data : Str) = '/' :: '>' :: "</p>".data from rfl]
    simp
  rw [harr]
  have hsplit := takeWhile_split (p := fun c => decide (c ≠ '>')) (b := '>')
    (t := "</p>".data ++ rest) (by simp) (a := g3 ++ ['/'])
    (fun x hx => by
      rcases List.mem_append.mp hx with h1 | h2
      · simp [h x h1]
      · simp at h2
        subst h2
        decide)
  simp only [figAfterQuoteSC]
  rw [hsplit.1, hsplit.2, List.getLast?_concat]
  rw [if_pos rfl]
  have hs2 : strip "></p>".data ('>' :: ("</p>".data ++ rest)) = some rest := by
    rw [show ("></p>".data : Str) = '>' :: "</p>".data from rfl]
    simp [strip, strip_append]
  rw [hs2, List.dropLast_concat]

theorem figAfterQuoteN_complete {g3 rest : Str} (h : ∀ c ∈ g3, c ≠ '>') :
    figAfterQuoteN (g3 ++ "></p>".data ++ rest) = some (g3, rest) := by
  have harr : g3 ++ "></p>".data ++ rest = g3 ++ '>' :: ("</p>".data ++ rest) := by
    rw [show ("></p>".data : Str) = '>' :: "</p>".data from rfl]
    simp
  rw [harr]
  have hsplit := takeWhile_split (p := fun c => decide (c ≠ '>')) (b := '>')
    (t := "</p>".data ++ rest) (by simp) (a := g3) (fun x hx => by simp [h x hx])
  simp only [figAfterQuoteN]
  rw [hsplit.1, hsplit.2]
  have hs2 : strip "></p>".data ('>' :: ("</p>".data ++ rest)) = some rest := by
    rw [show ("></p>".data : Str) = '>' :: "</p>".data from rfl]
    simp [strip, strip_append]
  rw [hs2]

end MonospaceWeb

namespace MonospaceWeb

theorem figAfterAlt_sound {after : Str → Option (Str × Str)} {tl : Str}
    (hafter : ∀ {t g3 rest}, after t = some (g3, rest) →
      t = g3 ++ tl ++ rest ∧ ∀ c ∈ g3, c ≠ '>')
    {t g2 g3 rest : Str} (h : figAfterAlt after t = some (g2, g3, rest)) :
    t = g2 ++ '"' :: (g3 ++ tl ++ rest) ∧ (∀ c ∈ g2, c ≠ '"') ∧ ∀ c ∈ g3, c ≠ '>' := by
  simp only [figAfterAlt] at h
  split at h
  case h_2 => exact absurd h (by simp)
  case h_1 c t2 hdrop =>
    split at h
    case isFalse => exact absurd h (by simp)
    case isTrue hc =>
      subst hc
      split at h
      case h_2 => exact absurd h (by simp)
      case h_1 g3' rest' hafterEq =>
        simp only [Option.some.injEq, Prod.mk.injEq] at h
        obtain ⟨rfl, rfl, rfl⟩ := h
        obtain ⟨ht2, hg3⟩ := hafter hafterEq
        refine ⟨?_, fun c hc2 => by simpa using mem_takeWhile hc2, hg3⟩
        conv_lhs => rw [← List.takeWhile_append_dropWhile
          (p := fun c => decide (c ≠ '"')) (l := t)]
        rw [hdrop, ht2]

theorem figAfterAlt_complete {after : Str → Option (Str × Str)} {g2 X : Str}
    (hg2 : ∀ c ∈ g2, c ≠ '"') (hX : (after X).isSome) :
    (figAfterAlt after (g2 ++ '"' :: X)).isSome := by
  have hsplit := takeWhile_split (p := fun c => decide (c ≠ '"')) (b := '"')
    (t := X) (by simp) (a := g2) (fun x hx => by simp [hg2 x hx])
  obtain ⟨⟨g3, rest⟩, hsome⟩ := Option.isSome_iff_exists.mp hX
  simp only [figAfterAlt, hsplit.2, hsome]
  simp

theorem figG1_sound {after : Str → Option (Str × Str)} (tl : Str)
    (hafter : ∀ {t g3 rest}, after t = some (g3, rest) →
      t = g3 ++ tl ++ rest ∧ ∀ c ∈ g3, c ≠ '>') :
    ∀ {u g1 g2 g3 rest : Str}, figG1 after u = some (g1, g2, g3, rest) →
      u = g1 ++ altPat ++ g2 ++ '"' :: (g3 ++ tl ++ rest) ∧ g1 ≠ [] ∧
        (∀ c ∈ g1, c ≠ '>') ∧ (∀ c ∈ g2, c ≠ '"') ∧ ∀ c ∈ g3, c ≠ '>' := by
  intro u
  induction u with
  | nil => intro g1 g2 g3 rest h; simp [figG1] at h
  | cons c cs ih =>
    intro g1 g2 g3 rest h
    simp only [figG1] at h
    split at h
    case isTrue => exact absurd h (by simp)
    case isFalse hc =>
      split at h
      case h_1 g1' g2' g3' rest' hrec =>
        simp only [Option.some.injEq, Prod.mk.injEq] at h
        obtain ⟨rfl, rfl, rfl, rfl⟩ := h
        obtain ⟨hcs, _, hg1', hg2, hg3⟩ := ih hrec
        refine ⟨by rw [hcs]; rfl, by simp, ?_, hg2, hg3⟩
        intro x hx
        rcases List.mem_cons.mp hx with rfl | hx2
        · exact hc
        · exact hg1' x hx2
      case h_2 hrec =>
        split at h
        case h_2 => exact absurd h (by simp)
        case h_1 t hstrip =>
          split at h
          case h_2 => exact absurd h (by simp)
          case h_1 g2' g3' rest' halt =>
            simp only [Option.some.injEq, Prod.mk.injEq] at h
            obtain ⟨rfl, rfl, rfl, rfl⟩ := h
            obtain ⟨ht, hg2, hg3⟩ := figAfterAlt_sound hafter halt
            have hcs := strip_sound hstrip
            refine ⟨by rw [hcs, ht]; rfl, by simp, ?_, hg2, hg3⟩
            intro x hx
            rcases List.mem_cons.mp hx with rfl | hx2
            · exact hc
            · simp at hx2

theorem figG1_complete (after : Str → Option (Str × Str)) {g2 X : Str}
    (hg2 : ∀ c ∈ g2, c ≠ '"') (hX : (after X).isSome) :
    ∀ {g1 : Str}, g1 ≠ [] → (∀ c ∈ g1, c ≠ '>') →
      (figG1 after (g1 ++ altPat ++ g2 ++ '"' :: X)).isSome := by
  intro g1
  induction g1 with
  | nil => intro h _; exact absurd rfl h
  | cons c g1' ih =>
    intro _ hg1
    have hc : c ≠ '>' := hg1 c (by simp)
    show (figG1 after (c :: (g1' ++ altPat ++ g2 ++ '"' :: X))).isSome
    simp only [figG1]
    rw [if_neg hc]
    cases hrec : figG1 after (g1' ++ altPat ++ g2 ++ '"' :: X) with
    | some v => simp
    | none =>
      rcases eq_or_ne g1' [] with rfl | hne
      · obtain ⟨⟨a, b, r⟩, halt⟩ :=
          Option.isSome_iff_exists.mp (@figAfterAlt_complete after g2 X hg2 hX)
        simp only [List.nil_append]
        have hstrip : strip altPat (altPat ++ g2 ++ '"' :: X) = some (g2 ++ '"' :: X) :=
          strip_append altPat (g2 ++ '"' :: X)
        rw [hstrip]
        simp [halt]
      · have hih := ih hne (fun x hx => hg1 x (by simp [hx]))
        rw [hrec] at hih
        simp at hih

theorem figTry_sound {slash : Bool} {s r : Str} {n : Nat} (h : figTry slash s = some (r, n)) :
    ∃ g1 g2 g3 rest,
      s = ("<p><img".data ++ g1 ++ altPat ++ g2 ++ '"' :: (g3 ++ figTail slash)) ++ rest ∧
      r = figRepl slash g1 g2 g3 ∧
      n = ("<p><img".data ++ g1 ++ altPat ++ g2 ++ '"' :: (g3 ++ figTail slash)).length ∧
      g1 ≠ [] ∧ (∀ c ∈ g1, c ≠ '>') ∧ (∀ c ∈ g2, c ≠ '"') ∧ ∀ c ∈ g3, c ≠ '>' := by
  unfold figTry at h
  split at h
  case h_2 => exact absurd h (by simp)
  case h_1 u hstrip =>
    split at h
    case h_2 => exact absurd h (by simp)
    case h_1 g1 g2 g3 rest hg1 =>
      simp only [Option.some.injEq, Prod.mk.injEq] at h
      obtain ⟨rfl, rfl⟩ := h
      have hs := strip_sound hstrip
      have hfig : u = g1 ++ altPat ++ g2 ++ '"' :: (g3 ++ figTail slash ++ rest) ∧ g1 ≠ [] ∧
          (∀ c ∈ g1, c ≠ '>') ∧ (∀ c ∈ g2, c ≠ '"') ∧ ∀ c ∈ g3, c ≠ '>' := by
        cases slash with
        | true =>
          simp only [Bool.if_true_left] at hg1
          exact figG1_sound (figTail true)
            (fun hq => by simpa [figTail] using figAfterQuoteSC_sound hq) hg1
        | false =>
          exact figG1_sound (figTail false)
            (fun hq => by simpa [figTail] using figAfterQuoteN_sound hq) hg1
      obtain ⟨hu, hne, hg1f, hg2f, hg3f⟩ := hfig
      refine ⟨g1, g2, g3, rest, ?_, rfl, ?_, hne, hg1f, hg2f, hg3f⟩
      · rw [hs, hu]
        simp
      · rw [hs, hu]
        simp [List.length_append]
        omega

theorem figTry_complete {slash : Bool} {g1 g2 g3 rest : Str}
    (h1 : g1 ≠ []) (h1' : ∀ c ∈ g1, c ≠ '>') (h2 : ∀ c ∈ g2, c ≠ '"')
    (h3 : ∀ c ∈ g3, c ≠ '>') :
    (figTry slash ("<p><img".data ++ g1 ++ altPat ++ g2 ++ '"' ::
      (g3 ++ figTail slash ++ rest))).isSome := by
  have hX : ((if slash then figAfterQuoteSC else figAfterQuoteN)
      (g3 ++ figTail slash ++ rest)).isSome := by
    cases slash with
    | true =>
      rw [if_pos rfl, show figTail true = "/></p>".data from rfl,
        figAfterQuoteSC_complete h3]
      rfl
    | false =>
      rw [if_neg (by simp), show figTail false = "></p>".data from rfl,
        figAfterQuoteN_complete h3]
      rfl
  have hfig := figG1_complete (if slash then figAfterQuoteSC else figAfterQuoteN)
    h2 hX h1 h1'
  obtain ⟨⟨a, b, c, r⟩, hv⟩ := Option.isSome_iff_exists.mp hfig
  unfold figTry
  simp only [show ("<p><img".data ++ g1 ++ altPat ++ g2 ++ '"' ::
      (g3 ++ figTail slash ++ rest) : Str)
    = "<p><img".data ++ (g1 ++ altPat ++ g2 ++ '"' :: (g3 ++ figTail slash ++ rest)) from
      by simp, strip_append, hv]
  rfl

end MonospaceWeb

namespace MonospaceWeb

/-! Lemmas about the table-of-contents extraction. -/

theorem afterFirst_divUl (r : Str) :
    afterFirst "<ul>".data ("<div class=\"toc\"><ul>".data ++ r) = some r := by
  show afterFirst "<ul>".data
    ('<' :: 'd' :: 'i' :: 'v' :: ' ' :: 'c' :: 'l' :: 'a' :: 's' :: 's' :: '=' :: '"' ::
      't' :: 'o' :: 'c' :: '"' :: '>' :: '<' :: 'u' :: 'l' :: '>' :: r) = some r
  simp [afterFirst, strip]

theorem beforeFirst_skip {n₀ : Char} {ns B : Str} :
    ∀ {a : Str}, (∀ c ∈ a, c ≠ n₀) →
      beforeFirst (n₀ :: ns) (a ++ B) = (beforeFirst (n₀ :: ns) B).map (a ++ ·) := by
  intro a
  induction a with
  | nil =>
    intro _
    cases hB : beforeFirst (n₀ :: ns) B <;> simp [hB]
  | cons x xs ih =>
    intro h
    have hx : strip (n₀ :: ns) (x :: (xs ++ B)) = none := strip_none_head (h x (by simp))
    rw [List.cons_append]
    simp only [beforeFirst, hx, ih fun c hc => h c (by simp [hc])]
    cases hB : beforeFirst (n₀ :: ns) B <;> simp [hB]

theorem beforeFirst_entry (e : Heading) {B : Str} (h : wfHeading e) :
    beforeFirst "</ul>".data (entryOutPre e ++ B)
      = (beforeFirst "</ul>".data B).map (entryOutPre e ++ ·) := by
  obtain ⟨h0, ha, ht⟩ := h
  have hsh : entryOutPre e ++ B =
      '<' :: 'l' :: 'i' :: '>' :: '<' :: 'a' :: ' ' :: 'h' :: 'r' :: 'e' :: 'f' :: '=' ::
        '"' :: '#' :: (e.anchor ++ '"' :: '>' ::
          (e.text ++ '<' :: '/' :: 'a' :: '>' :: '<' :: '/' :: 'l' :: 'i' :: '>' :: B)) := by
    simp [entryOutPre]
  rw [hsh]
  simp only [beforeFirst, strip]
  rw [beforeFirst_skip fun c hc => (ha c hc).1]
  simp only [beforeFirst, strip]
  rw [beforeFirst_skip ht]
  simp only [beforeFirst, strip]
  cases beforeFirst "</ul>".data B <;> simp [entryOutPre]

end MonospaceWeb

namespace MonospaceWeb

theorem beforeFirst_entries : ∀ {hs : List Heading}, (∀ e ∈ hs, wfHeading e) → ∀ {B : Str},
    beforeFirst "</ul>".data (entriesOut entryOutPre hs ++ B)
      = (beforeFirst "</ul>".data B).map (entriesOut entryOutPre hs ++ ·) := by
  intro hs
  induction hs with
  | nil =>
    intro _ B
    cases hB : beforeFirst "</ul>".data B <;> simp [hB, entriesOut]
  | cons e hs ih =>
    intro h B
    show beforeFirst "</ul>".data ((entryOutPre e ++ entriesOut entryOutPre hs) ++ B) = _
    rw [List.append_assoc, beforeFirst_entry e (h e (by simp)),
        ih fun f hf => h f (by simp [hf])]
    cases hB : beforeFirst "</ul>".data B <;> simp [hB, entriesOut]

theorem anchorTry_match {anchor Y : Str} (h0 : anchor ≠ [])
    (ha : ∀ c ∈ anchor, c ≠ '"') :
    anchorTry (anchorPat ++ (anchor ++ '"' :: '>' :: Y)) =
      some (anchorPat ++ anchor ++ "\" id=\"toc-".data ++ anchor ++ "\"".data,
        anchorPat.length + anchor.length + 1) := by
  unfold anchorTry
  rw [strip_append]
  have hsplit := takeWhile_split (p := fun c => decide (c ≠ '"')) (b := '"')
    (t := '>' :: Y) (by simp) (a := anchor) (fun x hx => by simp [ha x hx])
  simp only [hsplit.1, hsplit.2]
  rw [if_neg h0]
  simp

theorem addTocIds_entry (e : Heading) {B : Str} (h : wfHeading e) :
    subScan anchorTry (entryOutPre e ++ B) = entryOutId e ++ subScan anchorTry B := by
  obtain ⟨h0, ha, ht⟩ := h
  have s2 : ∀ X : Str, anchorTry ('<' :: '/' :: X) = none := fun X => by
    simp [anchorTry, anchorPat, strip]
  have s1 : ∀ X : Str, anchorTry ('<' :: 'l' :: X) = none := fun X => by
    simp [anchorTry, anchorPat, strip]
  have hsh : entryOutPre e ++ B =
      '<' :: 'l' :: 'i' :: '>' :: (anchorPat ++ (e.anchor ++ '"' :: '>' ::
        (e.text ++ '<' :: '/' :: 'a' :: '>' :: '<' :: '/' :: 'l' :: 'i' :: '>' :: B))) := by
    simp [entryOutPre, anchorPat]
  rw [hsh]
  rw [subScan_none (s1 _), subScan_none (anchorTry_none_head (by decide)),
      subScan_none (anchorTry_none_head (by decide)),
      subScan_none (anchorTry_none_head (by decide))]
  have hm := anchorTry_match (Y := e.text ++ '<' :: '/' :: 'a' :: '>' :: '<' :: '/' ::
    'l' :: 'i' :: '>' :: B) h0 fun c hc => (ha c hc).2
  have hm' : anchorTry ('<' :: ("a href=\"#".data ++ (e.anchor ++ '"' :: '>' ::
      (e.text ++ '<' :: '/' :: 'a' :: '>' :: '<' :: '/' :: 'l' :: 'i' :: '>' :: B)))) =
      some (anchorPat ++ e.anchor ++ "\" id=\"toc-".data ++ e.anchor ++ "\"".data,
        anchorPat.length + e.anchor.length + 1) := hm
  rw [show (anchorPat ++ (e.anchor ++ '"' :: '>' ::
      (e.text ++ '<' :: '/' :: 'a' :: '>' :: '<' :: '/' :: 'l' :: 'i' :: '>' :: B)) : Str) =
      '<' :: ("a href=\"#".data ++ (e.anchor ++ '"' :: '>' ::
      (e.text ++ '<' :: '/' :: 'a' :: '>' :: '<' :: '/' :: 'l' :: 'i' :: '>' :: B))) from rfl]
  rw [subScan_some hm']
  have hdl : (("a href=\"#".data ++ (e.anchor ++ '"' :: '>' ::
      (e.text ++ '<' :: '/' :: 'a' :: '>' :: '<' :: '/' :: 'l' :: 'i' :: '>' :: B))) : Str).drop
        (anchorPat.length + e.anchor.length + 1 - 1) =
      '>' :: (e.text ++ '<' :: '/' :: 'a' :: '>' :: '<' :: '/' :: 'l' :: 'i' :: '>' :: B) := by
    rw [show ("a href=\"#".data ++ (e.anchor ++ '"' :: '>' ::
        (e.text ++ '<' :: '/' :: 'a' :: '>' :: '<' :: '/' :: 'l' :: 'i' :: '>' :: B)) : Str) =
        ("a href=\"#".data ++ e.anchor ++ ['"']) ++ ('>' ::
        (e.text ++ '<' :: '/' :: 'a' :: '>' :: '<' :: '/' :: 'l' :: 'i' :: '>' :: B)) from
        by simp]
    rw [show anchorPat.length + e.anchor.length + 1 - 1 =
        ("a href=\"#".data ++ e.anchor ++ ['"'] : Str).length from by
        simp [anchorPat]
        omega]
    rw [List.drop_left]
  rw [hdl]
  rw [subScan_none (anchorTry_none_head (by decide))]
  rw [subScan_skip fun c cs hc => anchorTry_none_head (ht c hc)]
  rw [subScan_none (s2 _), subScan_none (anchorTry_none_head (by decide)),
      subScan_none (anchorTry_none_head (by decide)),
      subScan_none (anchorTry_none_head (by decide)),
      subScan_none (s2 _), subScan_none (anchorTry_none_head (by decide)),
      subScan_none (anchorTry_none_head (by decide)),
      subScan_none (anchorTry_none_head (by decide)),
      subScan_none (anchorTry_none_head (by decide))]
  simp [entryOutId, anchorPat]

theorem addTocIds_entries : ∀ {hs : List Heading}, (∀ e ∈ hs, wfHeading e) → ∀ {B : Str},
    subScan anchorTry (entriesOut entryOutPre hs ++ B)
      = entriesOut entryOutId hs ++ subScan anchorTry B := by
  intro hs
  induction hs with
  | nil => intro _ B; rfl
  | cons e hs ih =>
    intro h B
    show subScan anchorTry ((entryOutPre e ++ entriesOut entryOutPre hs) ++ B) = _
    rw [List.append_assoc, addTocIds_entry e (h e (by simp)),
        ih fun f hf => h f (by simp [hf])]
    simp [entriesOut]

theorem renderEntries_flat : ∀ {hs : List Heading}, (∀ e ∈ hs, e.level = 1) →
    renderEntries hs = entriesOut entryOutPre hs := by
  intro hs
  induction hs with
  | nil => intro _; rfl
  | cons e hs ih =>
    intro h
    show renderEntriesF (hs.length + 1) (e :: hs) = _
    simp only [renderEntriesF]
    have hkids : hs.takeWhile (fun f => decide (e.level < f.level)) = [] := by
      cases hs with
      | nil => rfl
      | cons f hs' =>
        rw [List.takeWhile_cons, if_neg ?hng]
        case hng =>
          rw [h e (by simp), h f (by simp)]
          simp
    have hsibs : hs.dropWhile (fun f => decide (e.level < f.level)) = hs := by
      cases hs with
      | nil => rfl
      | cons f hs' =>
        rw [List.dropWhile_cons, if_neg ?hng2]
        case hng2 =>
          rw [h e (by simp), h f (by simp)]
          simp
    rw [hkids, hsibs, if_pos rfl,
        show renderEntriesF hs.length hs = renderEntries hs from rfl,
        ih fun f hf => h f (by simp [hf])]
    simp [entriesOut, entryOutPre]

end MonospaceWeb

namespace MonospaceWeb

/-! Context-insensitivity analysis for `<pre>` blocks with escaped contents. -/

theorem preBlock_none (c : Str) (hc : ∀ x ∈ c, x ≠ '<') (t : Str)
    (ht : t <:+ "<pre><code>".data ++ (c ++ "</code></pre>".data)) :
    ulTry t = none ∧ olTry t = none ∧ figTry true t = none ∧ figTry false t = none := by
  rcases suffix_append_cases ht with h1 | ⟨a', ha', hne, rfl⟩
  · rcases suffix_append_cases h1 with h2 | ⟨c', hc', hne', rfl⟩
    · have hall : ∀ u ∈ ("</code></pre>".data : Str).tails,
          ulTry u = none ∧ olTry u = none ∧ figTry true u = none ∧ figTry false u = none := by
        decide
      exact hall t ((List.mem_tails t _).mpr h2)
    · cases c' with
      | nil => exact absurd rfl hne'
      | cons x xs =>
        have hx : x ≠ '<' := hc x (hc'.subset (by simp))
        exact ⟨ulTry_none_head hx, olTry_none_head hx, figTry_none_head hx,
          figTry_none_head hx⟩
  · have hmem := (List.mem_tails a' _).mpr ha'
    have htails : ("<pre><code>".data : Str).tails =
        ["<pre><code>".data, "pre><code>".data, "re><code>".data, "e><code>".data,
          "><code>".data, "<code>".data, "code>".data, "ode>".data, "de>".data,
          "e>".data, ">".data, []] := by decide
    rw [htails] at hmem
    simp only [List.mem_cons, List.not_mem_nil, or_false] at hmem
    rcases hmem with rfl | rfl | rfl | rfl | rfl | rfl | rfl | rfl | rfl | rfl | rfl | rfl
    · exact ⟨by simp [ulTry, strip], by simp [olTry, strip],
        by simp [figTry, strip], by simp [figTry, strip]⟩
    · exact ⟨ulTry_none_head (by decide), olTry_none_head (by decide),
        figTry_none_head (by decide), figTry_none_head (by decide)⟩
    · exact ⟨ulTry_none_head (by decide), olTry_none_head (by decide),
        figTry_none_head (by decide), figTry_none_head (by decide)⟩
    · exact ⟨ulTry_none_head (by decide), olTry_none_head (by decide),
        figTry_none_head (by decide), figTry_none_head (by decide)⟩
    · exact ⟨ulTry_none_head (by decide), olTry_none_head (by decide),
        figTry_none_head (by decide), figTry_none_head (by decide)⟩
    · exact ⟨by simp [ulTry, strip], by simp [olTry, strip],
        by simp [figTry, strip], by simp [figTry, strip]⟩
    · exact ⟨ulTry_none_head (by decide), olTry_none_head (by decide),
        figTry_none_head (by decide), figTry_none_head (by decide)⟩
    · exact ⟨ulTry_none_head (by decide), olTry_none_head (by decide),
        figTry_none_head (by decide), figTry_none_head (by decide)⟩
    · exact ⟨ulTry_none_head (by decide), olTry_none_head (by decide),
        figTry_none_head (by decide), figTry_none_head (by decide)⟩
    · exact ⟨ulTry_none_head (by decide), olTry_none_head (by decide),
        figTry_none_head (by decide), figTry_none_head (by decide)⟩
    · exact ⟨ulTry_none_head (by decide), olTry_none_head (by decide),
        figTry_none_head (by decide), figTry_none_head (by decide)⟩
    · exact absurd rfl hne

end MonospaceWeb

namespace MonospaceWeb

/-- C1: the per-occurrence behaviour of list classing (build.py lines 90-91),
amended — a `<ul` with no `class=` before the closing `>` gains
`class="incremental"` and one with a class is copied unchanged, but an `<ol` is
rewritten (gaining the class and `type="1"`) only when it declares neither
`class=` nor `type=` before the `>`; an `<ol` that carries only a `type`
attribute is left byte-for-byte unchanged, contrary to the original claim. -/
theorem claim_c1 (w : Str) :
    listClassUl ("<ul".data ++ w) =
      (if hasBefore '>' "class=".data w then "<ul".data ++ listClassUl w
       else "<ul class=\"incremental\"".data ++ listClassUl w) ∧
    listClassOl ("<ol".data ++ w) =
      (if hasBefore '>' "class=".data w || hasBefore '>' "type=".data w then
        "<ol".data ++ listClassOl w
       else "<ol class=\"incremental\" type=\"1\"".data ++ listClassOl w) :=
  ⟨listClassUl_eq w, listClassOl_eq w⟩

/-- C1 counterexample: an `<ol>` carrying only a `type` attribute but no
`class` is NOT given `class="incremental"` — the tag is left unchanged, since
the `(?![^>]*type=)` lookahead of line 91 suppresses the whole rewrite. -/
theorem claim_c1_counterexample :
    listClassOl "<ol type=\"a\"><li>x</li></ol>".data
        = "<ol type=\"a\"><li>x</li></ol>".data ∧
      ¬ "incremental".data <:+: listClassOl "<ol type=\"a\"><li>x</li></ol>".data := by
  constructor
  · decide
  · decide

/-- C2: figure synthesis, amended — for either spelling (`slash` selects the
self-closing variant), the matcher of build.py lines 95-102 fires exactly on
text beginning with a paragraph whose sole content is one image tag carrying an
explicit `alt="..."` attribute, and every replacement is the
figure/figcaption template over the three captures, whose caption text is the
`alt` capture verbatim (including the empty string).  A sole-image paragraph
whose image has no `alt` attribute is never rewritten. -/
theorem claim_c2 (slash : Bool) (s : Str) :
    ((figTry slash s).isSome ↔
      ∃ g1 g2 g3 rest,
        s = "<p><img".data ++ g1 ++ altPat ++ g2 ++ '"' :: (g3 ++ figTail slash ++ rest) ∧
        g1 ≠ [] ∧ (∀ c ∈ g1, c ≠ '>') ∧ (∀ c ∈ g2, c ≠ '"') ∧ ∀ c ∈ g3, c ≠ '>') ∧
    ∀ r n, figTry slash s = some (r, n) → ∃ g1 g2 g3, r = figRepl slash g1 g2 g3 := by
  constructor
  · constructor
    · intro hs
      obtain ⟨⟨r, n⟩, hv⟩ := Option.isSome_iff_exists.mp hs
      obtain ⟨g1, g2, g3, rest, hshape, _, _, hne, hg1, hg2, hg3⟩ := figTry_sound hv
      exact ⟨g1, g2, g3, rest, by rw [hshape]; simp, hne, hg1, hg2, hg3⟩
    · rintro ⟨g1, g2, g3, rest, rfl, hne, hg1, hg2, hg3⟩
      exact figTry_complete hne hg1 hg2 hg3
  · intro r n hv
    obtain ⟨g1, g2, g3, rest, _, hrepl, _⟩ := figTry_sound hv
    exact ⟨g1, g2, g3, hrepl⟩

/-- C2 counterexample: a paragraph whose sole content is an image with no
`alt` attribute is left as a plain paragraph by both figure passes — no
figcaption is produced, contrary to the claim's "empty string when alt is
absent". -/
theorem claim_c2_counterexample :
    figureN (figureSC "<p><img src=\"q.png\"></p>".data)
        = "<p><img src=\"q.png\"></p>".data ∧
      ¬ "<figcaption".data <:+: figureN (figureSC "<p><img src=\"q.png\"></p>".data) := by
  constructor
  · decide
  · decide

/-- C2 witness: the matcher fires on a concrete sole-image paragraph with
`alt="b"`, and the concrete replacement is recognised as the figure template. -/
theorem claim_c2_witness :
    (figTry true "<p><img src=\"a\" alt=\"b\"/></p>".data).isSome ∧
    ∃ g1 g2 g3,
      ("<figure><img src=\"a\" alt=\"b\"/><figcaption aria-hidden=\"true\">b" ++
        "</figcaption></figure>").data = figRepl true g1 g2 g3 := by
  constructor
  · exact (claim_c2 true _).1.mpr ⟨" src=\"a\" ".data, "b".data, [], [],
      by decide, by decide, by decide, by decide, by decide⟩
  · exact (claim_c2 true "<p><img src=\"a\" alt=\"b\"/></p>".data).2 _ 29 (by decide)

/-- C4: context (in)sensitivity, amended — the rewrites are purely textual and
context-free (the counterexample shows a literal `<ul` inside `<pre>` being
classed), but for code content in which the converter has escaped markup so
that no literal `<` remains in the block's text, the list-classing and
figure-synthesis passes leave the whole `<pre><code>...</code></pre>` block
unchanged. -/
theorem claim_c4 (c : Str) (hc : ∀ x ∈ c, x ≠ '<') :
    listFigRules ("<pre><code>".data ++ (c ++ "</code></pre>".data)) =
      "<pre><code>".data ++ (c ++ "</code></pre>".data) := by
  have h1 : listClassUl ("<pre><code>".data ++ (c ++ "</code></pre>".data)) = _ :=
    subScan_id_of_none fun t ht => (preBlock_none c hc t ht).1
  have h2 : listClassOl ("<pre><code>".data ++ (c ++ "</code></pre>".data)) = _ :=
    subScan_id_of_none fun t ht => (preBlock_none c hc t ht).2.1
  have h3 : figureSC ("<pre><code>".data ++ (c ++ "</code></pre>".data)) = _ :=
    subScan_id_of_none fun t ht => (preBlock_none c hc t ht).2.2.1
  have h4 : figureN ("<pre><code>".data ++ (c ++ "</code></pre>".data)) = _ :=
    subScan_id_of_none fun t ht => (preBlock_none c hc t ht).2.2.2
  rw [listFigRules, h1, h2, h3, h4]

/-- C4 counterexample: a literal `<ul` inside a `<pre><code>` block IS
rewritten by the list-classing rule — the rules do not exempt code blocks. -/
theorem claim_c4_counterexample :
    listClassUl "<pre><code><ul></code></pre>".data =
        "<pre><code><ul class=\"incremental\"></code></pre>".data ∧
      listClassUl "<pre><code><ul></code></pre>".data ≠
        "<pre><code><ul></code></pre>".data := by
  constructor
  · decide
  · decide

/-- C4 witness: a concrete escaped code block passes through all four
list/figure passes unchanged. -/
theorem claim_c4_witness :
    listFigRules ("<pre><code>".data ++ ("x = 1 &lt; 2".data ++ "</code></pre>".data)) =
      "<pre><code>".data ++ ("x = 1 &lt; 2".data ++ "</code></pre>".data) :=
  claim_c4 "x = 1 &lt; 2".data (by decide)

/-- C5: idempotence, amended — every rewrite rule is the identity on inputs on
which its single-position matcher fires at no suffix (inputs already in the
rule's target shape); the original claim of idempotence on every string fails
for codehilite stripping (see the counterexample), where deleting an
occurrence can splice a new occurrence together. -/
theorem claim_c5 (s : Str) :
    (noMatch ulTry s = true → listClassUl s = s) ∧
    (noMatch olTry s = true → listClassOl s = s) ∧
    (noMatch (figTry true) s = true → figureSC s = s) ∧
    (noMatch (figTry false) s = true → figureN s = s) ∧
    (noMatch chTry s = true → stripCodehilite s = s) :=
  ⟨fun h => subScan_id_of_none (noMatch_imp h),
   fun h => subScan_id_of_none (noMatch_imp h),
   fun h => subScan_id_of_none (noMatch_imp h),
   fun h => subScan_id_of_none (noMatch_imp h),
   fun h => subScan_id_of_none (noMatch_imp h)⟩

/-- C5 counterexample: the codehilite-stripping rule is not idempotent — on
` class=" class="codehilite"codehilite"` one application leaves
` class="codehilite"`, and a second application removes that too. -/
theorem claim_c5_counterexample :
    stripCodehilite " class=\" class=\"codehilite\"codehilite\"".data
        = " class=\"codehilite\"".data ∧
      stripCodehilite (stripCodehilite " class=\" class=\"codehilite\"codehilite\"".data)
        ≠ stripCodehilite " class=\" class=\"codehilite\"codehilite\"".data := by
  constructor
  · decide
  · decide

/-- C5 witness: a concrete document fragment already in target shape is fixed
by all five rewrites. -/
theorem claim_c5_witness :
    listClassUl "<ul class=\"tree\"><p>hi</p></ul>".data
        = "<ul class=\"tree\"><p>hi</p></ul>".data ∧
      listClassOl "<ul class=\"tree\"><p>hi</p></ul>".data
        = "<ul class=\"tree\"><p>hi</p></ul>".data ∧
      figureSC "<ul class=\"tree\"><p>hi</p></ul>".data
        = "<ul class=\"tree\"><p>hi</p></ul>".data ∧
      figureN "<ul class=\"tree\"><p>hi</p></ul>".data
        = "<ul class=\"tree\"><p>hi</p></ul>".data ∧
      stripCodehilite "<ul class=\"tree\"><p>hi</p></ul>".data
        = "<ul class=\"tree\"><p>hi</p></ul>".data :=
  ⟨(claim_c5 _).1 (by decide), (claim_c5 _).2.1 (by decide),
   (claim_c5 _).2.2.1 (by decide), (claim_c5 _).2.2.2.1 (by decide),
   (claim_c5 _).2.2.2.2 (by decide)⟩

/-- C10: frame property of figure synthesis (build.py lines 93-102) — whenever
a figure matcher fires, the consumed text is exactly `<p>` ++ img ++ `</p>` for
the matched image tag, and the replacement is `<figure>` ++ img ++
`<figcaption aria-hidden="true">` ++ alt ++ `</figcaption></figure>` with the
image tag reproduced character for character: every attribute, its spelling and
its order are retained; only the paragraph wrapper is replaced and the caption
appended. -/
theorem claim_c10 (slash : Bool) (s r : Str) (n : Nat)
    (h : figTry slash s = some (r, n)) :
    ∃ img cap, s.take n = "<p>".data ++ img ++ "</p>".data ∧
      r = "<figure>".data ++ img ++ figCapOpen ++ cap ++
        "</figcaption></figure>".data := by
  obtain ⟨g1, g2, g3, rest, hshape, hrepl, hn, _, _, _, _⟩ := figTry_sound h
  refine ⟨"<img".data ++ g1 ++ altPat ++ g2 ++ '"' ::
    (g3 ++ (if slash then "/>".data else ">".data)), g2, ?_, ?_⟩
  · rw [hshape, hn, List.take_left]
    cases slash <;> simp [figTail]
  · rw [hrepl]
    cases slash <;> simp [figRepl, figCapOpen]

/-- C10 witness: the matcher applied to a concrete sole-image paragraph with
several attributes; the conclusion exhibits the retained image tag. -/
theorem claim_c10_witness :
    ∃ img cap,
      ("<p><img src=\"castle.jpg\" alt=\"A castle\" width=\"5\"/></p>".data : Str).take 55
          = "<p>".data ++ img ++ "</p>".data ∧
        ("<figure><img src=\"castle.jpg\" alt=\"A castle\" width=\"5\"/>" ++
          "<figcaption aria-hidden=\"true\">A castle</figcaption></figure>").data
          = "<figure>".data ++ img ++ figCapOpen ++ cap ++
            "</figcaption></figure>".data :=
  claim_c10 true _ _ 55 (by decide)

end MonospaceWeb

namespace MonospaceWeb

theorem mget_none {m : List (Str × Str)} {k d : Str}
    (h : m.find? (fun p => p.1 == k) = none) : mget m k d = d := by
  simp [mget, h]

theorem mget_some {m : List (Str × Str)} {k d : Str} {kv : Str × Str}
    (h : m.find? (fun p => p.1 == k) = some kv) : mget m k d = kv.2 := by
  simp [mget, h]

/-- C3: table-of-contents extraction (build.py lines 107-122), amended — for a
flat single-level outline with ordinary anchors and heading text, the rendered
TOC is the classed list containing, for each heading in document order, exactly
the entry `<li><a href="#a" id="toc-a">text</a></li>` (one anchor per heading,
`href` targeting the heading's anchor and `id` equal to `toc-` plus the
anchor); for nested outlines the lazy `<ul>(.*?)</ul>` extraction truncates at
the first `</ul>` and drops every later entry (see the counterexample). -/
theorem claim_c3 (hs : List Heading) (hlvl : ∀ e ∈ hs, e.level = 1)
    (hwf : ∀ e ∈ hs, wfHeading e) :
    tocOrEmpty (tocSideChannel hs) =
      "<ul class=\"incremental\">".data ++ entriesOut entryOutId hs ++ "</ul>".data := by
  have hne : tocSideChannel hs ≠ [] := by
    intro hcontra
    have hlen := congrArg List.length hcontra
    simp [tocSideChannel] at hlen
  rw [tocOrEmpty, if_neg hne]
  have h1 : afterFirst "<ul>".data (tocSideChannel hs) =
      some (entriesOut entryOutPre hs ++ "</ul></div>".data) := by
    rw [tocSideChannel, renderEntries_flat hlvl]
    exact afterFirst_divUl _
  have h2 : beforeFirst "</ul>".data (entriesOut entryOutPre hs ++ "</ul></div>".data) =
      some (entriesOut entryOutPre hs) := by
    rw [beforeFirst_entries hwf,
      show beforeFirst "</ul>".data "</ul></div>".data = some [] from by decide]
    simp
  have h3 : addTocIds (entriesOut entryOutPre hs) = entriesOut entryOutId hs := by
    have h4 := addTocIds_entries hwf (B := [])
    rw [List.append_nil, show subScan anchorTry ([] : Str) = [] from rfl,
      List.append_nil] at h4
    exact h4
  simp only [formatToc, h1, h2, h3]

set_option maxRecDepth 40000 in
/-- C3 counterexample: for the nested outline A(level 1), B(level 2),
C(level 1), the formatted TOC is truncated at the first `</ul>` — the entry for
heading `c` is dropped entirely (its anchor occurs nowhere in the output), so
the TOC does not contain exactly one anchor entry per heading. -/
theorem claim_c3_counterexample :
    tocOrEmpty (tocSideChannel [⟨1, "a".data, "A".data⟩, ⟨2, "b".data, "B".data⟩,
        ⟨1, "c".data, "C".data⟩]) =
      ("<ul class=\"incremental\"><li><a href=\"#a\" id=\"toc-a\">A</a>" ++
        "<ul><li><a href=\"#b\" id=\"toc-b\">B</a></li></ul>").data ∧
    ¬ "href=\"#c".data <:+:
      tocOrEmpty (tocSideChannel [⟨1, "a".data, "A".data⟩, ⟨2, "b".data, "B".data⟩,
        ⟨1, "c".data, "C".data⟩]) := by
  constructor
  · decide
  · decide

/-- C3 witness: the amended statement applied to a concrete flat outline with
two headings. -/
theorem claim_c3_witness :
    tocOrEmpty (tocSideChannel [⟨1, "a".data, "A".data⟩, ⟨1, "b".data, "B".data⟩]) =
      "<ul class=\"incremental\">".data ++
        entriesOut entryOutId [⟨1, "a".data, "A".data⟩, ⟨1, "b".data, "B".data⟩] ++
        "</ul>".data :=
  claim_c3 _ (by decide) (by decide)

/-- C6: a document with zero headings — the converter side channel is the
empty TOC container, the extraction yields exactly the empty classed list
`<ul class="incremental"></ul>` (as does the falsy-`toc` branch), and the build
completes, writing a page whose TOC slot holds that list; the TOC is never
omitted. -/
theorem claim_c6 (m : List (Str × Str)) (content : Str)
    (staticSrc : Option (List (Str × Str))) (prev : OutDir) :
    tocOrEmpty (tocSideChannel []) = emptyToc ∧ tocOrEmpty [] = emptyToc ∧
    build (some ⟨m, content, tocSideChannel []⟩) staticSrc prev =
      .ok ⟨some (renderTemplate (metaOf m) emptyToc (normalize content)),
        staticSrc.getD []⟩ := by
  refine ⟨by decide, by decide, ?_⟩
  have htoc : tocOrEmpty (tocSideChannel []) = emptyToc := by decide
  cases staticSrc with
  | none =>
    simp [build, generateMonospaceWeb, copyStaticFiles, cleanOutputDir, generatePage, htoc]
  | some fs =>
    simp [build, generateMonospaceWeb, copyStaticFiles, cleanOutputDir, generatePage, htoc]

/-- C7: metadata defaulting (build.py lines 129-133) — for each template slot,
a missing key yields the documented default (`The Monospace Web` for the title,
the empty string for subtitle/author/author-url, `Contents` for the TOC title)
and a present key's value is used as-is. -/
theorem claim_c7 (m : List (Str × Str)) :
    (m.find? (fun p => p.1 == "title".data) = none →
      (metaOf m).title = "The Monospace Web".data) ∧
    (∀ kv, m.find? (fun p => p.1 == "title".data) = some kv → (metaOf m).title = kv.2) ∧
    (m.find? (fun p => p.1 == "subtitle".data) = none → (metaOf m).subtitle = []) ∧
    (∀ kv, m.find? (fun p => p.1 == "subtitle".data) = some kv →
      (metaOf m).subtitle = kv.2) ∧
    (m.find? (fun p => p.1 == "author".data) = none → (metaOf m).author = []) ∧
    (∀ kv, m.find? (fun p => p.1 == "author".data) = some kv → (metaOf m).author = kv.2) ∧
    (m.find? (fun p => p.1 == "author-url".data) = none → (metaOf m).authorUrl = []) ∧
    (∀ kv, m.find? (fun p => p.1 == "author-url".data) = some kv →
      (metaOf m).authorUrl = kv.2) ∧
    (m.find? (fun p => p.1 == "toc-title".data) = none →
      (metaOf m).tocTitle = "Contents".data) ∧
    (∀ kv, m.find? (fun p => p.1 == "toc-title".data) = some kv →
      (metaOf m).tocTitle = kv.2) :=
  ⟨fun h => mget_none h, fun _ h => mget_some h, fun h => mget_none h,
   fun _ h => mget_some h, fun h => mget_none h, fun _ h => mget_some h,
   fun h => mget_none h, fun _ h => mget_some h, fun h => mget_none h,
   fun _ h => mget_some h⟩

/-- C7 witness: a mapping carrying only a title uses that title as-is, and the
empty mapping produces every documented default. -/
theorem claim_c7_witness :
    (metaOf [("title".data, "Demo".data)]).title = "Demo".data ∧
    (metaOf []).title = "The Monospace Web".data ∧
    (metaOf []).subtitle = [] ∧ (metaOf []).author = [] ∧
    (metaOf []).authorUrl = [] ∧ (metaOf []).tocTitle = "Contents".data :=
  ⟨(claim_c7 [("title".data, "Demo".data)]).2.1 ("title".data, "Demo".data) (by decide),
   (claim_c7 []).1 rfl, (claim_c7 []).2.2.1 rfl, (claim_c7 []).2.2.2.2.1 rfl,
   (claim_c7 []).2.2.2.2.2.2.1 rfl, (claim_c7 []).2.2.2.2.2.2.2.2.1 rfl⟩

/-- C8: build determinism (build.py lines 145-158) — the output directory state
after a build depends only on the input document and static tree, never on the
previous output state, because `clean_output_dir` discards it; hence running
the build again on identical input reproduces the identical output. -/
theorem claim_c8 (input : Option Document) (staticSrc : Option (List (Str × Str)))
    (prev o : OutDir) (h : build input staticSrc prev = .ok o) :
    build input staticSrc o = .ok o := by
  have hindep : build input staticSrc o = build input staticSrc prev := rfl
  rw [hindep, h]

/-- C8 witness: a concrete build followed by a rebuild over its own output. -/
theorem claim_c8_witness :
    build (some ⟨[], "x".data, []⟩) none ⟨none, []⟩ =
        .ok ⟨some (generatePage ⟨[], "x".data, []⟩), []⟩ ∧
      build (some ⟨[], "x".data, []⟩) none
          ⟨some (generatePage ⟨[], "x".data, []⟩), []⟩ =
        .ok ⟨some (generatePage ⟨[], "x".data, []⟩), []⟩ :=
  ⟨rfl, claim_c8 (some ⟨[], "x".data, []⟩) none ⟨none, []⟩
    ⟨some (generatePage ⟨[], "x".data, []⟩), []⟩ rfl⟩

/-- C9: missing input file (build.py lines 74-76) — `generate_monospace_web`
reports the missing file (the Bool flag), returns `.ok` (no exception) and
leaves the output state untouched (no file written); by contrast an existing
input is written.  A missing input is a soft no-op for the step. -/
theorem claim_c9 (o : OutDir) (doc : Document) :
    generateMonospaceWeb none o = .ok (o, true) ∧
    generateMonospaceWeb (some doc) o =
      .ok ({ o with indexHtml := some (generatePage doc) }, false) :=
  ⟨rfl, rfl⟩

end MonospaceWeb
